import Mathlib

set_option maxRecDepth 4000

namespace Phi

/-! Shallow embedding of the PHI compliance core (detector, redactor, audit logger).
    Texts are modelled as `List Char`; JS regular expressions are modelled by a
    small backtracking engine with JS priority semantics (leftmost match, ordered
    alternation, greedy quantifiers, `\b` word boundaries). -/

/-- JS word character class `\w` = `[A-Za-z0-9_]`, used by the `\b` assertion. -/
def isWordChar (c : Char) : Bool :=
  let n := c.toNat
  (decide (97 ≤ n) && decide (n ≤ 122)) || (decide (65 ≤ n) && decide (n ≤ 90)) ||
  (decide (48 ≤ n) && decide (n ≤ 57)) || (n == 95)

/-- JS whitespace class `\s` (tab, LF, VT, FF, CR, space, NBSP, and the Unicode
    space separators recognised by ECMAScript). -/
def isJsSpace (c : Char) : Bool :=
  let n := c.toNat
  (n == 9) || (n == 10) || (n == 11) || (n == 12) || (n == 13) || (n == 32) ||
  (n == 160) || (n == 5760) || (decide (8192 ≤ n) && decide (n ≤ 8202)) ||
  (n == 8232) || (n == 8233) || (n == 8239) || (n == 8287) || (n == 12288) || (n == 65279)

/-- The ECMAScript `\b` assertion at position `i` of `s`: true iff exactly one of
    the character before / the character at `i` is a word character. -/
def isBoundary (s : List Char) (i : Nat) : Bool :=
  let left := match i with
    | 0 => false
    | j+1 => match s.get? j with
      | some c => isWordChar c
      | none => false
  let right := match s.get? i with
    | some c => isWordChar c
    | none => false
  left != right

/-- Regular-expression abstract syntax: empty word, character class, concatenation,
    ordered alternation, greedy Kleene star and the `\b` assertion.  Capture groups
    do not influence the extent of `match[0]`, so they are not represented. -/
inductive Regex where
  | eps : Regex
  | cls : (Char → Bool) → Regex
  | cat : Regex → Regex → Regex
  | alt : Regex → Regex → Regex
  | star : Regex → Regex
  | bnd : Regex

/-- First-success choice, modelling the backtracking order of a JS engine. -/
def orTry (a : Option Nat) (b : Unit → Option Nat) : Option Nat :=
  match a with
  | some v => some v
  | none => b ()

/-- Greedy star loop: prefer one more (non-empty) iteration of the body, fall back
    to the continuation.  An iteration that consumes nothing is rejected, as in the
    ECMAScript RepeatMatcher.  `fuel` bounds the number of iterations; since every
    iteration advances the position, `length + 1` fuel is always enough. -/
def starLoop (body : Nat → (Nat → Option Nat) → Option Nat) (k : Nat → Option Nat) :
    Nat → Nat → Option Nat
  | 0, i => k i
  | fuel+1, i =>
      orTry (body i (fun j => if j = i then none else starLoop body k fuel j))
        (fun _ => k i)

/-- CPS backtracking matcher: `mmatch r s i k fuel` tries to match `r` in `s`
    starting at position `i` and hands every candidate end position to `k` in
    JS backtracking priority order, returning the first success. -/
def mmatch : Regex → List Char → Nat → (Nat → Option Nat) → Nat → Option Nat
  | .eps, _, i, k, _ => k i
  | .cls p, s, i, k, _ =>
      match s.get? i with
      | some c => if p c then k (i+1) else none
      | none => none
  | .cat r1 r2, s, i, k, fuel => mmatch r1 s i (fun j => mmatch r2 s j k fuel) fuel
  | .alt r1 r2, s, i, k, fuel => orTry (mmatch r1 s i k fuel) (fun _ => mmatch r2 s i k fuel)
  | .bnd, s, i, k, _ => if isBoundary s i then k i else none
  | .star r, s, i, k, fuel => starLoop (fun j k2 => mmatch r s j k2 fuel) k fuel i

/-- The priority-first match of `r` at exactly position `i` (end position). -/
def matchOne (r : Regex) (s : List Char) (i : Nat) : Option Nat :=
  mmatch r s i some (s.length + 1)

/-- Scan positions `i, i+1, ...` for the leftmost match, as JS `exec` does from
    `lastIndex`; fails once the position exceeds the string length. -/
def firstMatchAux (r : Regex) (s : List Char) : Nat → Nat → Option (Nat × Nat)
  | _, 0 => none
  | i, fuel+1 =>
      if i ≤ s.length then
        match matchOne r s i with
        | some e => some (i, e)
        | none => firstMatchAux r s (i+1) fuel
      else none

def firstMatchFrom (r : Regex) (s : List Char) (i : Nat) : Option (Nat × Nat) :=
  firstMatchAux r s i (s.length + 1 - i)

/-- The `while ((match = pattern.exec(text)) !== null)` loop of `detect`
    (src/unnamed/part_001 lines 96-105) for one global-flag regex: repeatedly take
    the leftmost match from the cursor, then set the cursor to the match end
    (`lastIndex = match.index + match[0].length`).  A failing `exec` resets
    `lastIndex` to 0, which is the returned cursor.  (On an empty match the JS
    loop would not terminate; the fuel bound is only a termination device and is
    never reached by the registered patterns, which cannot match the empty word.) -/
def scanLoop (r : Regex) (s : List Char) : Nat → Nat → List (Nat × Nat) × Nat
  | 0, li => ([], li)
  | fuel+1, li =>
      match firstMatchFrom r s li with
      | none => ([], 0)
      | some (j, e) =>
          let rest := scanLoop r s fuel e
          ((j, e) :: rest.1, rest.2)

/-! Regex construction helpers. -/

def chr (c : Char) : Regex := .cls (fun x => x == c)

/-- Case-insensitive literal character (the `/i` flag applied to a literal). -/
def chrCI (c : Char) : Regex := .cls (fun x => x.toLower == c.toLower)

def digit : Regex := .cls (fun c => decide ('0' ≤ c) && decide (c ≤ '9'))

def rng (a b : Char) : Regex := .cls (fun c => decide (a ≤ c) && decide (c ≤ b))

def seq (rs : List Regex) : Regex := rs.foldr Regex.cat Regex.eps

def altL : List Regex → Regex
  | [] => Regex.cls (fun _ => false)
  | [r] => r
  | r :: r2 :: rs => .alt r (altL (r2 :: rs))

/-- `r{n}`: exactly `n` copies. -/
def rep (r : Regex) : Nat → Regex
  | 0 => .eps
  | n+1 => .cat r (rep r n)

/-- `r?` (greedy). -/
def opt (r : Regex) : Regex := .alt r .eps

/-- `r{0,n}` (greedy). -/
def upTo (r : Regex) : Nat → Regex
  | 0 => .eps
  | n+1 => .alt (.cat r (upTo r n)) .eps

/-- `r{m,n}` (greedy). -/
def between (r : Regex) (m n : Nat) : Regex := .cat (rep r m) (upTo r (n - m))

/-- `r+` (greedy). -/
def plus (r : Regex) : Regex := .cat r (.star r)

/-- `r{m,}` (greedy). -/
def atLeast (r : Regex) (m : Nat) : Regex := .cat (rep r m) (.star r)

def strLit (w : String) : Regex := seq (w.toList.map chr)

def strLitCI (w : String) : Regex := seq (w.toList.map chrCI)

/-! The eleven registered patterns (src/unnamed/part_001 lines 18-87),
    transcribed regex by regex. -/

def isUpperAZ (c : Char) : Bool := decide ('A' ≤ c) && decide (c ≤ 'Z')
def isLowerAZ (c : Char) : Bool := decide ('a' ≤ c) && decide (c ≤ 'z')
def isDigitCh (c : Char) : Bool := decide ('0' ≤ c) && decide (c ≤ '9')

/-- `[A-Za-z0-9._%+-]` -/
def emailLocalCh (c : Char) : Bool :=
  isUpperAZ c || isLowerAZ c || isDigitCh c || c == '.' || c == '_' || c == '%' ||
  c == '+' || c == '-'

/-- `[A-Za-z0-9.-]` -/
def emailDomainCh (c : Char) : Bool :=
  isUpperAZ c || isLowerAZ c || isDigitCh c || c == '.' || c == '-'

/-- `[A-Z|a-z]` (the source class literally contains `|`). -/
def tldCh (c : Char) : Bool := isUpperAZ c || c == '|' || isLowerAZ c

/-- `[-.\s]` -/
def sepCh (c : Char) : Bool := c == '-' || c == '.' || isJsSpace c

/-- `[:\s]` -/
def colonSpaceCh (c : Char) : Bool := c == ':' || isJsSpace c

/-- `[\w-]` -/
def wordHyphenCh (c : Char) : Bool := isWordChar c || c == '-'

/-- the class containing dash and forward slash -/
def dashSlashCh (c : Char) : Bool := c == '-' || c == '/'

/-- `[A-Za-z\s]` -/
def alphaSpaceCh (c : Char) : Bool := isUpperAZ c || isLowerAZ c || isJsSpace c

/-- `\b\d{3}-\d{2}-\d{4}\b|\b\d{9}\b` -/
def ssnRe : Regex :=
  .alt (seq [.bnd, rep digit 3, chr '-', rep digit 2, chr '-', rep digit 4, .bnd])
       (seq [.bnd, rep digit 9, .bnd])

/-- `\b\d{3}-\d{2}-\d{4}-[A-Z]\b` -/
def medicareRe : Regex :=
  seq [.bnd, rep digit 3, chr '-', rep digit 2, chr '-', rep digit 4, chr '-',
       rng 'A' 'Z', .bnd]

/-- `\b[A-Za-z0-9._%+-]+@[A-Za-z0-9.-]+\.[A-Z|a-z]{2,}\b` -/
def emailRe : Regex :=
  seq [.bnd, plus (.cls emailLocalCh), chr '@', plus (.cls emailDomainCh), chr '.',
       atLeast (.cls tldCh) 2, .bnd]

/-- `\b(?:\+?1[-.\s]?)?\(?([0-9]{3})\)?[-.\s]?([0-9]{3})[-.\s]?([0-9]{4})\b` -/
def phoneRe : Regex :=
  seq [.bnd, opt (seq [opt (chr '+'), chr '1', opt (.cls sepCh)]), opt (chr '('),
       rep digit 3, opt (chr ')'), opt (.cls sepCh), rep digit 3, opt (.cls sepCh),
       rep digit 4, .bnd]

/-- `\b(?:MRN|mrn|Medical Record Number)[:\s]?[\w-]{4,20}\b` with the `i` flag. -/
def mrnRe : Regex :=
  seq [.bnd, altL [strLitCI ("MRN"), strLitCI ("mrn"), strLitCI ("Medical Record Number")],
       opt (.cls colonSpaceCh), between (.cls wordHyphenCh) 4 20, .bnd]

/-- the DOB pattern: a `DOB`, `dob` or `Date of Birth` label, an optional colon or
    space, then day, month and year digit groups separated by dash or slash,
    with the `i` flag. -/
def dobRe : Regex :=
  seq [.bnd, altL [strLitCI ("DOB"), strLitCI ("dob"), strLitCI ("Date of Birth")],
       opt (.cls colonSpaceCh), between digit 1 2, .cls dashSlashCh, between digit 1 2,
       .cls dashSlashCh, between digit 2 4, .bnd]

/-- Visa/Mastercard/Amex/Diners/Discover credit-card numbers. -/
def ccRe : Regex :=
  seq [.bnd,
       altL [seq [chr '4', rep digit 12, opt (rep digit 3)],
             seq [chr '5', rng '1' '5', rep digit 14],
             seq [chr '3', .cls (fun c => c == '4' || c == '7'), rep digit 13],
             seq [chr '3', .alt (seq [chr '0', rng '0' '5'])
                                (seq [.cls (fun c => c == '6' || c == '8'), digit]),
                  rep digit 11],
             seq [chr '6', .alt (strLit ("011")) (seq [chr '5', rep digit 2]),
                  rep digit 12]],
       .bnd]

/-- `25[0-5]|2[0-4][0-9]|[01]?[0-9][0-9]?` -/
def octetRe : Regex :=
  altL [seq [strLit ("25"), rng '0' '5'],
        seq [chr '2', rng '0' '4', digit],
        seq [opt (rng '0' '1'), digit, opt digit]]

/-- `\b(?:(?:25[0-5]|2[0-4][0-9]|[01]?[0-9][0-9]?)\.){3}(?:...)\b` -/
def ipRe : Regex := seq [.bnd, rep (seq [octetRe, chr '.']) 3, octetRe, .bnd]

/-- `[A-Z][a-z]+` -/
def nameWordRe : Regex := seq [rng 'A' 'Z', plus (rng 'a' 'z')]

/-- `\b(?:patient|Patient|PATIENT)[:\s]+([A-Z][a-z]+(?:\s+[A-Z][a-z]+)+)\b` -/
def patientRe : Regex :=
  seq [.bnd, altL [strLit ("patient"), strLit ("Patient"), strLit ("PATIENT")],
       plus (.cls colonSpaceCh), nameWordRe,
       plus (seq [plus (.cls isJsSpace), nameWordRe]), .bnd]

/-- `\b(?:Dr\.|Doctor|Physician|Provider)[:\s]+([A-Z][a-z]+(?:\s+[A-Z][a-z]+)?)\b` -/
def doctorRe : Regex :=
  seq [.bnd, altL [strLit ("Dr."), strLit ("Doctor"), strLit ("Physician"), strLit ("Provider")],
       plus (.cls colonSpaceCh), nameWordRe,
       opt (seq [plus (.cls isJsSpace), nameWordRe]), .bnd]

/-- `\b\d+\s+[A-Za-z\s]+(?:Street|St|Avenue|Ave|Road|Rd|Boulevard|Blvd|Lane|Ln|Drive|Dr|Court|Ct)\b` with the `i` flag. -/
def addressRe : Regex :=
  seq [.bnd, plus digit, plus (.cls isJsSpace), plus (.cls alphaSpaceCh),
       altL [strLitCI ("Street"), strLitCI ("St"), strLitCI ("Avenue"), strLitCI ("Ave"),
             strLitCI ("Road"), strLitCI ("Rd"), strLitCI ("Boulevard"), strLitCI ("Blvd"),
             strLitCI ("Lane"), strLitCI ("Ln"), strLitCI ("Drive"), strLitCI ("Dr"),
             strLitCI ("Court"), strLitCI ("Ct")],
       .bnd]

inductive Confidence where
  | high | medium | low
deriving DecidableEq, Repr

structure PHIPattern where
  name : String
  re : Regex
  confidence : Confidence
  category : String

/-- The pattern registry, in registration order (src/unnamed/part_001 lines 18-87). -/
def patterns : List PHIPattern :=
  [ { name := "SSN", re := ssnRe, confidence := .high, category := "identifier" },
    { name := "Medicare Number", re := medicareRe, confidence := .high, category := "identifier" },
    { name := "Email", re := emailRe, confidence := .medium, category := "contact" },
    { name := "Phone Number", re := phoneRe, confidence := .medium, category := "contact" },
    { name := "Medical Record Number", re := mrnRe, confidence := .high, category := "medical" },
    { name := "Date of Birth", re := dobRe, confidence := .high, category := "demographic" },
    { name := "Credit Card", re := ccRe, confidence := .high, category := "financial" },
    { name := "IP Address", re := ipRe, confidence := .low, category := "technical" },
    { name := "Patient Name Context", re := patientRe, confidence := .medium, category := "demographic" },
    { name := "Doctor Name Context", re := doctorRe, confidence := .medium, category := "provider" },
    { name := "Address", re := addressRe, confidence := .medium, category := "demographic" } ]

structure PHIMatch where
  type : String
  value : List Char
  startIndex : Nat
  endIndex : Nat
  confidence : Confidence
  category : String
deriving DecidableEq, Repr

/-- The match record pushed for one regex hit (lines 97-104): `value` is
    `match[0]`, i.e. the consumed substring of the text. -/
def mkMatch (p : PHIPattern) (s : List Char) (pr : Nat × Nat) : PHIMatch :=
  { type := p.name, value := (s.drop pr.1).take (pr.2 - pr.1), startIndex := pr.1,
    endIndex := pr.2, confidence := p.confidence, category := p.category }

/-- One iteration of the `forEach` in `detect` (lines 92-106): set
    `pattern.lastIndex = 0` (line 94, which discards the incoming cursor), run
    the exec loop, and return the matches with the regex's final cursor. -/
def scanPattern (p : PHIPattern) (s : List Char) (cursor : Nat) : List PHIMatch × Nat :=
  let _ := cursor
  let r := scanLoop p.re s (s.length + 1) 0
  (r.1.map (mkMatch p s), r.2)

/-- Stable insertion into a list sorted by `startIndex` (an element is placed
    before the first strictly-later and all equal keys that were inserted
    earlier stay behind it, matching the stable JS `sort`). -/
def insertByStart (m : PHIMatch) : List PHIMatch → List PHIMatch
  | [] => [m]
  | x :: xs => if m.startIndex ≤ x.startIndex then m :: x :: xs else x :: insertByStart m xs

/-- The stable sort `matches.sort((a, b) => a.startIndex - b.startIndex)` of
    line 109.  A stable comparator sort has a unique result, so any stable
    sorting algorithm is a faithful model. -/
def sortByStart (l : List PHIMatch) : List PHIMatch := l.foldr insertByStart []

/-- `detect` (lines 89-110) on a fresh detector: every pattern is scanned over
    the full text and the concatenated matches are sorted by position. -/
def detect (s : List Char) : List PHIMatch :=
  sortByStart ((patterns.map (fun p => (scanPattern p s 0).1)).flatten)

/-- Pair each pattern with its regex object's current `lastIndex`; a missing
    entry means a fresh regex, whose `lastIndex` is 0. -/
def zipCursors : List PHIPattern → List Nat → List (PHIPattern × Nat)
  | [], _ => []
  | p :: ps, [] => (p, 0) :: zipCursors ps []
  | p :: ps, c :: cs => (p, c) :: zipCursors ps cs

/-- `detect` with the mutable per-regex `lastIndex` state made explicit: the
    input state is the cursor of each registered pattern's regex object and the
    output state is the cursors after the call. -/
def detectSt (s : List Char) (st : List Nat) : List PHIMatch × List Nat :=
  let results := (zipCursors patterns st).map (fun pc => scanPattern pc.1 s pc.2)
  (sortByStart ((results.map (fun r => r.1)).flatten), results.map (fun r => r.2))

inductive RiskLevel where
  | high | medium | low | none
deriving DecidableEq, Repr

structure RiskAnalysis where
  riskLevel : RiskLevel
  phiCount : Nat
  categories : List String
  highConfidenceCount : Nat
deriving DecidableEq, Repr

/-- `[...new Set(xs)]`: deduplication keeping first-seen order. -/
def dedupFirstSeen (l : List String) : List String :=
  l.foldl (fun acc x => if acc.contains x then acc else acc ++ [x]) []

/-- `analyzeRisk` (lines 112-147). -/
def analyzeRisk (s : List Char) : RiskAnalysis :=
  let ms := detect s
  if ms.length = 0 then
    { riskLevel := .none, phiCount := 0, categories := [], highConfidenceCount := 0 }
  else
    let highConfidenceCount := (ms.filter (fun m => m.confidence == .high)).length
    let uniqueCategories := dedupFirstSeen (ms.map (fun m => m.category))
    let riskLevel : RiskLevel :=
      if highConfidenceCount ≥ 3 ∨ ms.length ≥ 5 then .high
      else if highConfidenceCount ≥ 1 ∨ ms.length ≥ 3 then .medium
      else .low
    { riskLevel := riskLevel, phiCount := ms.length, categories := uniqueCategories,
      highConfidenceCount := highConfidenceCount }

/-! The redaction engine (src/unnamed/part_001 lines 185-329). -/

structure RedactionOptions where
  redactionChar : List Char
  preserveLength : Bool
  showPartial : Bool
  partialChars : Nat
  useHash : Bool
  hashPrefix : List Char
deriving DecidableEq, Repr

/-- The redactor's `defaultOptions` (lines 204-211). -/
def defaultOptions : RedactionOptions :=
  { redactionChar := ("*").toList, preserveLength := true, showPartial := false,
    partialChars := 2, useHash := false, hashPrefix := ("HASH_").toList }

structure RedactionResult where
  redactedText : List Char
  /-- the source's `matches` field (`matches` is a reserved word in Lean). -/
  matchList : List PHIMatch
  redactionCount : Nat
  originalLength : Nat
  redactedLength : Nat
deriving DecidableEq, Repr

/-- JS `str.repeat(n)`: the string repeated `n` times. -/
def repeatChars (c : List Char) : Nat → List Char
  | 0 => []
  | n+1 => c ++ repeatChars c n

/-- `text.substring(0, start) + replacement + text.substring(stop)` (lines 239-242). -/
def spliceJS (s : List Char) (start stop : Nat) (repl : List Char) : List Char :=
  s.take start ++ repl ++ s.drop stop

/-- `generateReplacement` (lines 254-273).  The SHA-256 digest comes from the
    external CryptoJS library, which is not part of this repository; it is
    abstracted as the function argument `hash8` (the first 8 hex characters of
    the digest of the value). -/
def generateReplacement (hash8 : List Char → List Char) (value : List Char)
    (o : RedactionOptions) : List Char :=
  if o.useHash then
    o.hashPrefix ++ hash8 value
  else if o.showPartial ∧ value.length > o.partialChars * 2 then
    value.take o.partialChars ++ repeatChars o.redactionChar (value.length - o.partialChars * 2)
      ++ value.drop (value.length - o.partialChars)
  else if o.preserveLength then
    repeatChars o.redactionChar value.length
  else
    ("[").toList ++ o.redactionChar ++ ("REDACTED").toList ++ o.redactionChar ++ ("]").toList

/-- `redact` (lines 217-252), taking the already-merged options record: detect,
    then splice each match's replacement in reverse position order, then report
    the matches back in original order (`reverse` twice). -/
def redact (hash8 : List Char → List Char) (s : List Char) (opts : RedactionOptions) :
    RedactionResult :=
  let ms := detect s
  if ms.length = 0 then
    { redactedText := s, matchList := [], redactionCount := 0, originalLength := s.length,
      redactedLength := s.length }
  else
    let rev := ms.reverse
    let red := rev.foldl
      (fun acc m => spliceJS acc m.startIndex m.endIndex (generateReplacement hash8 m.value opts))
      s
    { redactedText := red, matchList := rev.reverse, redactionCount := rev.length,
      originalLength := s.length, redactedLength := red.length }

/-- `createSafePreview` (lines 317-328): redact with the fixed preset merged
    over the defaults, then truncate to `maxLength` characters with an appended
    ellipsis when truncation happens. -/
def createSafePreview (hash8 : List Char → List Char) (s : List Char) (maxLength : Nat) :
    List Char :=
  let result := redact hash8 s
    { redactionChar := ("█").toList, preserveLength := false, showPartial := false,
      partialChars := 2, useHash := false, hashPrefix := ("HASH_").toList }
  if result.redactedText.length > maxLength then
    result.redactedText.take maxLength ++ ("...").toList
  else
    result.redactedText

/-! The audit logger (src/unnamed/part_000 lines 1-366). -/

inductive AuditAction where
  | phi_detected | phi_redacted | file_uploaded | file_downloaded | data_accessed
  | data_exported | compliance_report_generated | system_login | system_logout
  | permission_denied | security_violation
deriving DecidableEq, Repr

inductive ResourceType where
  | file | data | system
deriving DecidableEq, Repr

inductive EventRisk where
  | low | medium | high | critical
deriving DecidableEq, Repr

/-- The fields of the free-form `details` payload that the logger reads, plus
    the payload keys used by the spec's Example 5.  `containsPHI` models JS
    truthiness of the key (absent = false); `fileType` is `none` when absent. -/
structure Details where
  phiTypes : List String := []
  confidence : Option String := none
  matchCount : Option Nat := none
  containsPHI : Bool := false
  fileType : Option String := none
deriving DecidableEq, Repr

structure AuditEvent where
  id : String
  timestamp : Int
  userId : String
  action : AuditAction
  resourceType : ResourceType
  resourceId : String
  details : Details
  riskLevel : EventRisk
  complianceFlags : List String
  ipAddress : String
  userAgent : String
deriving DecidableEq, Repr

/-- `details.fileType && ['xlsx', 'csv', 'txt'].includes(details.fileType)`
    (part_000 lines 307-308): truthy and a member of the allow-list.  The empty
    string is falsy in JS and also not in the list, so `Option` membership with
    list containment is an exact model. -/
def fileTypeAllowed : Option String → Bool
  | some ft => ([("xlsx"), ("csv"), ("txt")] : List String).contains ft
  | none => false

/-- `generateComplianceFlags` (part_000 lines 278-313): sequential `flags.push`
    calls become list concatenation in the same order.  The `file_uploaded`
    branch requires `details.fileType` truthy and a member of the allow-list;
    see `fileTypeAllowed`. -/
def generateComplianceFlags (action : AuditAction) (details : Details)
    (riskLevel : EventRisk) : List String :=
  (if action = .phi_detected then
      ("hipaa_phi_detection") ::
        (if riskLevel = .high then [("hipaa_high_risk_phi")] else [])
    else []) ++
  (if action = .phi_redacted then [("hipaa_phi_redaction")] else []) ++
  (if action = .data_exported ∧ details.containsPHI then [("hipaa_phi_export")] else []) ++
  (if action = .permission_denied then [("access_control_violation")] else []) ++
  (if action = .file_uploaded ∧ fileTypeAllowed details.fileType then
    [("structured_data_upload")] else [])

/-- Environment inputs of one `log` call that come from the outside world:
    `generateId()` and `new Date()`. -/
structure LogEnv where
  id : String
  timestamp : Int
deriving DecidableEq, Repr

/-- All arguments of one `log` call (part_000 lines 50-57). -/
structure LogCall where
  env : LogEnv
  userId : String
  action : AuditAction
  resourceType : ResourceType
  resourceId : String
  details : Details
  riskLevel : EventRisk
deriving DecidableEq, Repr

/-- `maxEvents` (line 42). -/
def maxEvents : Nat := 10000

/-- The `AuditEvent` constructed by `log` (lines 58-70); `getCurrentIP` and
    `getCurrentUserAgent` return the fixed demo values of lines 315-323. -/
def mkEvent (c : LogCall) : AuditEvent :=
  { id := c.env.id, timestamp := c.env.timestamp, userId := c.userId, action := c.action,
    resourceType := c.resourceType, resourceId := c.resourceId, details := c.details,
    riskLevel := c.riskLevel,
    complianceFlags := generateComplianceFlags c.action c.details c.riskLevel,
    ipAddress := ("127.0.0.1"), userAgent := ("Unknown") }

/-- The in-memory state transition of `log` (lines 72-77): `unshift` the new
    event, then truncate to `maxEvents`.  Persistence and the high-risk side
    effect (lines 80-85) are external I/O that does not touch the in-memory
    sequence, so they do not appear in the state transition. -/
def logStep (events : List AuditEvent) (c : LogCall) : List AuditEvent :=
  let events2 := mkEvent c :: events
  if events2.length > maxEvents then events2.take maxEvents else events2

structure EventFilter where
  userId : Option String := none
  action : Option AuditAction := none
  riskLevel : Option EventRisk := none
  dateRange : Option (Int × Int) := none
  limit : Option Nat := none
deriving DecidableEq, Repr

/-- `getEvents` (lines 155-186).  Each `if (filter.x)` is a JS truthiness test:
    an absent field or the empty string for `userId` skips that filter, and
    `filter.limit ? slice : all` treats a zero limit as no limit. -/
def getEvents (events : List AuditEvent) (f : EventFilter) : List AuditEvent :=
  let e1 := match f.userId with
    | some u => if u = ("") then events else events.filter (fun ev => ev.userId == u)
    | none => events
  let e2 := match f.action with
    | some a => e1.filter (fun ev => ev.action == a)
    | none => e1
  let e3 := match f.riskLevel with
    | some rl => e2.filter (fun ev => ev.riskLevel == rl)
    | none => e2
  let e4 := match f.dateRange with
    | some dr => e3.filter (fun ev => decide (dr.1 ≤ ev.timestamp) && decide (ev.timestamp ≤ dr.2))
    | none => e3
  match f.limit with
  | some l => if l = 0 then e4 else e4.take l
  | none => e4

structure ComplianceMetrics where
  totalEvents : Nat
  phiDetections : Nat
  redactions : Nat
  highRiskEvents : Nat
  complianceViolations : Nat
  timeRange : Int × Int
deriving DecidableEq, Repr

/-- `needle` occurs as a contiguous run inside `hay` starting at the front. -/
def leadsWith : List Char → List Char → Bool
  | [], _ => true
  | _ :: _, [] => false
  | a :: as, b :: bs => a == b && leadsWith as bs

/-- JS `hay.includes(needle)`: substring containment. -/
def hasSub (hay needle : List Char) : Bool :=
  (List.range (hay.length + 1)).any (fun i => leadsWith needle (hay.drop i))

/-- `getComplianceMetrics` (lines 189-219).  The two `new Date()` calls of the
    fallback time range are modelled by the single parameter `now`. -/
def getComplianceMetrics (events : List AuditEvent) (dateRange : Option (Int × Int))
    (now : Int) : ComplianceMetrics :=
  let evs := match dateRange with
    | some dr => getEvents events { dateRange := some dr }
    | none => events
  let phiDetections := (evs.filter (fun e => e.action == .phi_detected)).length
  let redactions := (evs.filter (fun e => e.action == .phi_redacted)).length
  let highRiskEvents :=
    (evs.filter (fun e => e.riskLevel == .high || e.riskLevel == .critical)).length
  let complianceViolations :=
    (evs.filter (fun e => e.complianceFlags.any (fun fl =>
      hasSub fl.toList (("violation").toList) || hasSub fl.toList (("breach").toList)))).length
  let timeRange : Int × Int := match dateRange with
    | some dr => dr
    | none =>
        ((match evs.getLast? with | some e => e.timestamp | none => now),
         (match evs.head? with | some e => e.timestamp | none => now))
  { totalEvents := evs.length, phiDetections := phiDetections, redactions := redactions,
    highRiskEvents := highRiskEvents, complianceViolations := complianceViolations,
    timeRange := timeRange }

/-- The compliance-flag derivation as enumerated by the specification (spec §4.3
    and claim C7).  This is the spec-side description, to be compared with the
    source-side `generateComplianceFlags`. -/
def specComplianceFlags (action : AuditAction) (details : Details)
    (riskLevel : EventRisk) : List String :=
  match action with
  | .phi_detected =>
      if riskLevel = .high then [("hipaa_phi_detection"), ("hipaa_high_risk_phi")]
      else [("hipaa_phi_detection")]
  | .phi_redacted => [("hipaa_phi_redaction")]
  | .data_exported => if details.containsPHI then [("hipaa_phi_export")] else []
  | .permission_denied => [("access_control_violation")]
  | .file_uploaded =>
      match details.fileType with
      | some ft =>
          if ([("xlsx"), ("csv"), ("txt")] : List String).contains ft then
            [("structured_data_upload")]
          else []
      | none => []
  | _ => []

/-- A stand-in for the external SHA-256 based hash in closed statements whose
    options never take the `useHash` branch. -/
def noHash : List Char → List Char := fun _ => []

/-- JS `text.substring(a, b)`: both arguments are clamped to `[0, length]` and
    swapped when out of order. -/
def substringJS (s : List Char) (a b : Nat) : List Char :=
  let a2 := min a s.length
  let b2 := min b s.length
  (s.take (max a2 b2)).drop (min a2 b2)

/-- The single match `detect` finds in the text `a@b.co`. -/
def exEmailMatch : PHIMatch :=
  { type := ("Email"), value := ("a@b.co").toList, startIndex := 0, endIndex := 6,
    confidence := .medium, category := ("contact") }

/-- A concrete first `log` call. -/
def exCall1 : LogCall :=
  { env := { id := ("audit_1"), timestamp := 1 }, userId := ("alice"),
    action := .phi_detected, resourceType := .data, resourceId := ("doc1"),
    details := {}, riskLevel := .high }

/-- A concrete second `log` call. -/
def exCall2 : LogCall :=
  { env := { id := ("audit_2"), timestamp := 2 }, userId := ("bob"),
    action := .system_login, resourceType := .system, resourceId := ("sess"),
    details := {}, riskLevel := .low }

/-- The `log` call of spec Example 5:
    `log(userId, phi_detected, data, doc1, \x7bphiTypes: [SSN], confidence: high,
    matchCount: 1\x7d, high)`, with the environment (id and timestamp) left open. -/
def exCall5 (env : LogEnv) : LogCall :=
  { env := env, userId := ("userId"), action := .phi_detected, resourceType := .data,
    resourceId := ("doc1"),
    details := { phiTypes := [("SSN")], confidence := some ("high"), matchCount := some 1 },
    riskLevel := .high }

/-! Generic lemmas about the regex engine: every reported span lies inside the
    scanned text. -/

theorem starLoop_bounds (C : Nat → Prop) (len : Nat)
    (body : Nat → (Nat → Option Nat) → Option Nat) (k : Nat → Option Nat) (i0 : Nat)
    (hbody : ∀ i k2, i0 ≤ i → i ≤ len →
        (∀ j e, i ≤ j → j ≤ len → k2 j = some e → C e) →
        ∀ e, body i k2 = some e → C e)
    (hk : ∀ j e, i0 ≤ j → j ≤ len → k j = some e → C e) :
    ∀ fuel i, i0 ≤ i → i ≤ len → ∀ e, starLoop body k fuel i = some e → C e := by
  intro fuel
  induction fuel with
  | zero => intro i h0 hl e he; exact hk i e h0 hl he
  | succ f ih =>
    intro i h0 hl e he
    simp only [starLoop] at he
    cases hb : body i (fun j => if j = i then none else starLoop body k f j) with
    | some v =>
        rw [hb] at he
        simp only [orTry] at he
        obtain rfl := Option.some.inj he
        refine hbody i _ h0 hl ?_ _ hb
        intro j e2 hij hjl hkj
        by_cases hji : j = i
        · subst hji; simp at hkj
        · rw [if_neg hji] at hkj
          exact ih j (le_trans h0 hij) hjl e2 hkj
    | none =>
        rw [hb] at he
        simp only [orTry] at he
        exact hk i e h0 hl he

theorem mmatch_bounds (C : Nat → Prop) (r : Regex) :
    ∀ (s : List Char) (i : Nat) (k : Nat → Option Nat) (fuel : Nat),
      i ≤ s.length →
      (∀ j e, i ≤ j → j ≤ s.length → k j = some e → C e) →
      ∀ e, mmatch r s i k fuel = some e → C e := by
  induction r with
  | eps => intro s i k fuel hi hk e he; exact hk i e le_rfl hi he
  | cls p =>
      intro s i k fuel hi hk e he
      simp only [mmatch] at he
      split at he
      · rename_i c hg
        split at he
        · have hlt : i < s.length := by
            by_contra hcon
            push_neg at hcon
            rw [List.get?_eq_none.mpr hcon] at hg
            cases hg
          exact hk (i+1) e (Nat.le_succ i) hlt he
        · cases he
      · cases he
  | cat r1 r2 ih1 ih2 =>
      intro s i k fuel hi hk e he
      simp only [mmatch] at he
      refine ih1 s i _ fuel hi ?_ e he
      intro j e2 hij hjl hm
      refine ih2 s j k fuel hjl ?_ e2 hm
      intro j2 e3 hj2 hl3 hk3
      exact hk j2 e3 (le_trans hij hj2) hl3 hk3
  | alt r1 r2 ih1 ih2 =>
      intro s i k fuel hi hk e he
      simp only [mmatch] at he
      cases h1 : mmatch r1 s i k fuel with
      | some v =>
          rw [h1] at he
          simp only [orTry] at he
          cases he
          exact ih1 s i k fuel hi hk _ h1
      | none =>
          rw [h1] at he
          simp only [orTry] at he
          exact ih2 s i k fuel hi hk e he
  | bnd =>
      intro s i k fuel hi hk e he
      simp only [mmatch] at he
      by_cases hb : isBoundary s i
      · rw [if_pos hb] at he; exact hk i e le_rfl hi he
      · rw [if_neg hb] at he; cases he
  | star r ih =>
      intro s i k fuel hi hk e he
      simp only [mmatch] at he
      exact starLoop_bounds C s.length (fun j k2 => mmatch r s j k2 fuel) k i
        (fun i2 k2 _ hl hk2 e2 he2 => ih s i2 k2 fuel hl hk2 e2 he2)
        hk fuel i le_rfl hi e he

theorem matchOne_bounds {r : Regex} {s : List Char} {i e : Nat}
    (hi : i ≤ s.length) (h : matchOne r s i = some e) : i ≤ e ∧ e ≤ s.length := by
  refine mmatch_bounds (fun e => i ≤ e ∧ e ≤ s.length) r s i some (s.length + 1) hi ?_ e h
  intro j e2 hij hjl hje
  cases hje
  exact ⟨hij, hjl⟩

theorem firstMatchAux_bounds (r : Regex) (s : List Char) :
    ∀ (fuel i j e : Nat), firstMatchAux r s i fuel = some (j, e) →
      i ≤ j ∧ j ≤ e ∧ e ≤ s.length := by
  intro fuel
  induction fuel with
  | zero => intro i j e h; simp [firstMatchAux] at h
  | succ f ih =>
      intro i j e h
      simp only [firstMatchAux] at h
      split at h
      · rename_i hi
        split at h
        · rename_i e2 hm
          injection h with h2
          injection h2 with h3 h4
          subst h3
          subst h4
          obtain ⟨h1, h2⟩ := matchOne_bounds hi hm
          exact ⟨le_rfl, h1, h2⟩
        · obtain ⟨h1, h2, h3⟩ := ih (i+1) j e h
          exact ⟨le_trans (Nat.le_succ i) h1, h2, h3⟩
      · cases h

theorem firstMatchFrom_bounds {r : Regex} {s : List Char} {i j e : Nat}
    (h : firstMatchFrom r s i = some (j, e)) : i ≤ j ∧ j ≤ e ∧ e ≤ s.length :=
  firstMatchAux_bounds r s _ i j e h

theorem scanLoop_bounds (r : Regex) (s : List Char) :
    ∀ (fuel li : Nat) (pr : Nat × Nat), pr ∈ (scanLoop r s fuel li).1 →
      pr.1 ≤ pr.2 ∧ pr.2 ≤ s.length := by
  intro fuel
  induction fuel with
  | zero => intro li pr h; simp [scanLoop] at h
  | succ f ih =>
      intro li pr h
      simp only [scanLoop] at h
      split at h
      · cases h
      · rename_i j e hm
        simp only [List.mem_cons] at h
        rcases h with h | h
        · subst h
          obtain ⟨-, h2, h3⟩ := firstMatchFrom_bounds hm
          exact ⟨h2, h3⟩
        · exact ih e pr h

/-! Lemmas about the stable position sort and the invariants of `detect`. -/

theorem mem_insertByStart {m x : PHIMatch} {l : List PHIMatch}
    (h : x ∈ insertByStart m l) : x = m ∨ x ∈ l := by
  induction l with
  | nil =>
      simp only [insertByStart, List.mem_singleton] at h
      exact Or.inl h
  | cons a l ih =>
      simp only [insertByStart] at h
      by_cases hc : m.startIndex ≤ a.startIndex
      · rw [if_pos hc] at h
        rcases List.mem_cons.mp h with h | h
        · exact Or.inl h
        · exact Or.inr h
      · rw [if_neg hc] at h
        rcases List.mem_cons.mp h with h | h
        · exact Or.inr (List.mem_cons.mpr (Or.inl h))
        · rcases ih h with h | h
          · exact Or.inl h
          · exact Or.inr (List.mem_cons.mpr (Or.inr h))

theorem mem_sortByStart {x : PHIMatch} : ∀ {l : List PHIMatch}, x ∈ sortByStart l → x ∈ l := by
  intro l
  induction l with
  | nil => intro h; simp [sortByStart] at h
  | cons a l ih =>
      intro h
      have h2 : x ∈ insertByStart a (sortByStart l) := h
      rcases mem_insertByStart h2 with h3 | h3
      · subst h3; exact List.mem_cons_self _ _
      · exact List.mem_cons_of_mem _ (ih h3)

theorem pairwise_insertByStart {m : PHIMatch} {l : List PHIMatch}
    (h : List.Pairwise (fun a b => a.startIndex ≤ b.startIndex) l) :
    List.Pairwise (fun a b => a.startIndex ≤ b.startIndex) (insertByStart m l) := by
  induction l with
  | nil => simp [insertByStart]
  | cons a l ih =>
      simp only [insertByStart]
      rcases List.pairwise_cons.mp h with ⟨ha, hl⟩
      by_cases hc : m.startIndex ≤ a.startIndex
      · rw [if_pos hc]
        refine List.pairwise_cons.mpr ⟨?_, h⟩
        intro b hb
        rcases List.mem_cons.mp hb with rfl | hb
        · exact hc
        · exact le_trans hc (ha b hb)
      · rw [if_neg hc]
        refine List.pairwise_cons.mpr ⟨?_, ih hl⟩
        intro b hb
        rcases mem_insertByStart hb with rfl | hb
        · omega
        · exact ha b hb

theorem pairwise_sortByStart (l : List PHIMatch) :
    List.Pairwise (fun a b => a.startIndex ≤ b.startIndex) (sortByStart l) := by
  induction l with
  | nil => simp [sortByStart]
  | cons a l ih => exact pairwise_insertByStart ih

/-- Every match reported by `detect` carries in-range indices and its `value`
    is exactly the designated slice of the text. -/
theorem detect_bounds {s : List Char} {m : PHIMatch} (h : m ∈ detect s) :
    m.startIndex ≤ m.endIndex ∧ m.endIndex ≤ s.length ∧
    m.value = (s.drop m.startIndex).take (m.endIndex - m.startIndex) := by
  have h2 : m ∈ (patterns.map (fun p => (scanPattern p s 0).1)).flatten := mem_sortByStart h
  rw [List.mem_flatten] at h2
  obtain ⟨l, hl, hm⟩ := h2
  rw [List.mem_map] at hl
  obtain ⟨p, _, rfl⟩ := hl
  simp only [scanPattern, List.mem_map] at hm
  obtain ⟨pr, hpr, rfl⟩ := hm
  obtain ⟨h1, h2⟩ := scanLoop_bounds p.re s _ 0 pr hpr
  exact ⟨h1, h2, rfl⟩

theorem detect_value_length {s : List Char} {m : PHIMatch} (h : m ∈ detect s) :
    m.value.length = m.endIndex - m.startIndex := by
  obtain ⟨h1, h2, h3⟩ := detect_bounds h
  rw [h3, List.length_take, List.length_drop]
  omega

/-- `scanPattern` discards the incoming cursor (line 94 sets
    `pattern.lastIndex = 0` before the scan). -/
theorem scanPattern_cursor (p : PHIPattern) (s : List Char) (c : Nat) :
    scanPattern p s c = scanPattern p s 0 := rfl

theorem zipCursors_scan (s : List Char) (ps : List PHIPattern) :
    ∀ st : List Nat,
      (zipCursors ps st).map (fun pc => scanPattern pc.1 s pc.2) =
        ps.map (fun p => scanPattern p s 0) := by
  induction ps with
  | nil => intro st; cases st <;> rfl
  | cons p ps ih =>
      intro st
      cases st with
      | nil => simp only [zipCursors, List.map_cons, ih]
      | cons c cs =>
          simp only [zipCursors, List.map_cons, ih]
          rw [scanPattern_cursor]

/-- `substring` with in-range, ordered arguments is the take-after-drop slice. -/
theorem substringJS_of_le {s : List Char} {a b : Nat} (hab : a ≤ b) (hb : b ≤ s.length) :
    substringJS s a b = (s.drop a).take (b - a) := by
  show (s.take (max (min a s.length) (min b s.length))).drop
      (min (min a s.length) (min b s.length)) = (s.drop a).take (b - a)
  rw [min_eq_left (le_trans hab hb), min_eq_left hb, max_eq_right hab, min_eq_left hab,
    List.drop_take]

/-! The claims. -/

/-- C1: the spec (and the repository's own test suite, phiDetector.test.ts
    lines 101-107) state that `analyzeRisk` on
    `"Contact patient@email.com or call 555-123-4567"` returns `riskLevel:
    medium` with `phiCount: 2`.  The code finds exactly two matches (the email
    and the phone number), both of `medium` confidence, so
    `highConfidenceCount = 0` and `phiCount = 2 < 3`, which the classifier maps
    to `low`, contradicting the claim: this evaluation records what the code
    actually returns at that input. -/
theorem claimC1 :
    analyzeRisk (("Contact patient@email.com or call 555-123-4567").toList) =
      { riskLevel := .low, phiCount := 2, categories := [("contact")],
        highConfidenceCount := 0 } ∧
    (detect (("Contact patient@email.com or call 555-123-4567").toList)).map
        (fun m => (m.type, m.confidence)) =
      [(("Email"), Confidence.medium), (("Phone Number"), Confidence.medium)] := by
  exact ⟨by decide, by decide⟩

/-- C2 (counterexample): on the PHI-free text `123-45-67891` with
    `maxLength = 11`, `createSafePreview` truncates to `123-45-6789` and appends
    the ellipsis, and `detect` finds an SSN match in the resulting preview, so
    the preview is not free of detectable PHI. -/
theorem claimC2_counterexample :
    detect (("123-45-67891").toList) = [] ∧
    createSafePreview noHash (("123-45-67891").toList) 11 = ("123-45-6789...").toList ∧
    detect (createSafePreview noHash (("123-45-67891").toList) 11) ≠ [] := by
  exact ⟨by decide, by decide, by decide⟩

/-- C2 (amended): the PHI-freedom half of the claim is false (see the
    counterexample: truncation can manufacture a detectable PHI value), but the
    length bound holds: for every hash function, text and `maxLength`, the
    preview is at most `maxLength + 3` characters long. -/
theorem claimC2 (hash8 : List Char → List Char) (s : List Char) (maxLength : Nat) :
    (createSafePreview hash8 s maxLength).length ≤ maxLength + 3 := by
  simp only [createSafePreview]
  split_ifs with hl
  · rw [List.length_append, List.length_take]
    have h3 : (("...").toList).length = 3 := rfl
    omega
  · push_neg at hl
    omega

/-- C3: every match `m` reported by `detect` satisfies
    `m.value == text.substring(m.startIndex, m.endIndex)` and
    `m.endIndex == m.startIndex + m.value.length`, and the returned list is
    sorted by monotonically non-decreasing `startIndex`. -/
theorem claimC3 (s : List Char) :
    (∀ m ∈ detect s,
        m.value = substringJS s m.startIndex m.endIndex ∧
        m.endIndex = m.startIndex + m.value.length) ∧
    List.Pairwise (fun a b => a.startIndex ≤ b.startIndex) (detect s) := by
  constructor
  · intro m hm
    obtain ⟨h1, h2, h3⟩ := detect_bounds hm
    have hv := detect_value_length hm
    refine ⟨?_, by omega⟩
    rw [h3, substringJS_of_le h1 h2]
  · exact pairwise_sortByStart _

/-- Witness for C3: the concrete match found in `a@b.co`. -/
theorem claimC3_witness :
    exEmailMatch.value = substringJS (("a@b.co").toList) exEmailMatch.startIndex
        exEmailMatch.endIndex ∧
    exEmailMatch.endIndex = exEmailMatch.startIndex + exEmailMatch.value.length := by
  exact (claimC3 (("a@b.co").toList)).1 exEmailMatch (by decide)

/-- C5: `detect` is a pure function of the text even though the registry's
    regexes are global-flag objects with a persistent `lastIndex` cursor: the
    reset on line 94 makes the result independent of the incoming cursor state,
    so a second call right after a first one returns the identical match list
    (hence identical position, value, type, confidence and category fields). -/
theorem claimC5 (s : List Char) (st : List Nat) :
    (detectSt s ((detectSt s st).2)).1 = (detectSt s st).1 ∧
    ∀ st2 : List Nat, (detectSt s st2).1 = detect s := by
  have key : ∀ st2 : List Nat, (detectSt s st2).1 = detect s := by
    intro st2
    show sortByStart ((((zipCursors patterns st2).map (fun pc => scanPattern pc.1 s pc.2)).map
        (fun r => r.1)).flatten) = _
    rw [zipCursors_scan s patterns st2, List.map_map]
    rfl
  exact ⟨(key _).trans (key st).symm, key⟩

/-- C4: `analyzeRisk` classifies exactly by the claimed thresholds: `none` on no
    matches; otherwise `high` iff `h ≥ 3 ∨ n ≥ 5`, else `medium` iff
    `h ≥ 1 ∨ n ≥ 3`, else `low`, with `phiCount = n` and
    `highConfidenceCount = h`, where `n` is the match count and `h` the count of
    high-confidence matches. -/
theorem claimC4 (s : List Char) (n h : Nat)
    (hn : n = (detect s).length)
    (hh : h = ((detect s).filter (fun m => m.confidence == Confidence.high)).length) :
    ((detect s).length = 0 → analyzeRisk s =
      { riskLevel := .none, phiCount := 0, categories := [], highConfidenceCount := 0 }) ∧
    ((detect s).length ≠ 0 →
      (analyzeRisk s).phiCount = n ∧
      (analyzeRisk s).highConfidenceCount = h ∧
      ((analyzeRisk s).riskLevel = .high ↔ (h ≥ 3 ∨ n ≥ 5)) ∧
      ((analyzeRisk s).riskLevel = .medium ↔ (¬(h ≥ 3 ∨ n ≥ 5) ∧ (h ≥ 1 ∨ n ≥ 3))) ∧
      ((analyzeRisk s).riskLevel = .low ↔ (¬(h ≥ 3 ∨ n ≥ 5) ∧ ¬(h ≥ 1 ∨ n ≥ 3)))) := by
  subst hn hh
  constructor
  · intro h0
    simp only [analyzeRisk]
    rw [if_pos h0]
  · intro h0
    simp only [analyzeRisk]
    rw [if_neg h0]
    refine ⟨rfl, rfl, ?_, ?_, ?_⟩ <;>
      by_cases hc1 : (((detect s).filter (fun m => m.confidence == Confidence.high)).length ≥ 3 ∨
        (detect s).length ≥ 5) <;>
      by_cases hc2 : (((detect s).filter (fun m => m.confidence == Confidence.high)).length ≥ 1 ∨
        (detect s).length ≥ 3) <;>
      simp [hc1, hc2]

/-- Witness for C4 at `SSN: 123-45-6789`: one match, high confidence, hence
    riskLevel `medium` and phiCount 1. -/
theorem claimC4_witness :
    (analyzeRisk (("SSN: 123-45-6789").toList)).riskLevel = .medium ∧
    (analyzeRisk (("SSN: 123-45-6789").toList)).phiCount = 1 := by
  have h := (claimC4 (("SSN: 123-45-6789").toList) 1 1 (by decide) (by decide)).2 (by decide)
  exact ⟨(h.2.2.2.1).mpr (by decide), h.1⟩

/-! Length preservation of the redactor. -/

theorem repeatChars_length (c : List Char) : ∀ n, (repeatChars c n).length = n * c.length := by
  intro n
  induction n with
  | zero => simp [repeatChars]
  | succ m ih =>
      simp only [repeatChars, List.length_append, ih, Nat.succ_mul]
      omega

theorem foldl_splice_length (f : PHIMatch → List Char) (L : Nat) :
    ∀ (l : List PHIMatch) (acc : List Char), acc.length = L →
      (∀ m ∈ l, m.startIndex ≤ m.endIndex ∧ m.endIndex ≤ L ∧
        (f m).length = m.endIndex - m.startIndex) →
      (l.foldl (fun a m => spliceJS a m.startIndex m.endIndex (f m)) acc).length = L := by
  intro l
  induction l with
  | nil => intro acc ha _; simpa using ha
  | cons m l ih =>
      intro acc ha hall
      simp only [List.foldl_cons]
      refine ih _ ?_ (fun m2 hm2 => hall m2 (List.mem_cons_of_mem _ hm2))
      obtain ⟨hb1, hb2, hb3⟩ := hall m (List.mem_cons_self _ _)
      simp only [spliceJS, List.length_append, List.length_take, List.length_drop, ha, hb3]
      omega

/-- When no hash, no partial reveal and `preserveLength` with a one-character
    `redactionChar`, the replacement has exactly the value's length. -/
theorem generateReplacement_preserve (hash8 : List Char → List Char)
    (value : List Char) (o : RedactionOptions)
    (h1 : o.useHash = false)
    (h2 : o.showPartial = false ∨ value.length ≤ 2 * o.partialChars)
    (h3 : o.preserveLength = true)
    (h4 : o.redactionChar.length = 1) :
    (generateReplacement hash8 value o).length = value.length := by
  have hcond : ¬(o.showPartial = true ∧ value.length > o.partialChars * 2) := by
    rcases h2 with h2 | h2
    · intro hx; rw [h2] at hx; cases hx.1
    · intro hx; omega
  simp only [generateReplacement, h1, Bool.false_eq_true, if_false, hcond, h3, if_true]
  rw [repeatChars_length, h4, mul_one]

/-- C6: whenever every match's replacement is produced by the preserve-length
    branch (`useHash` off, `showPartial` off or all values short enough,
    `preserveLength` on, one-character `redactionChar`), `redact` returns text
    of exactly the original character length, and `redactedLength` equals
    `originalLength`. -/
theorem claimC6 (hash8 : List Char → List Char) (s : List Char) (opts : RedactionOptions)
    (h1 : opts.useHash = false)
    (h2 : opts.showPartial = false ∨ ∀ m ∈ detect s, m.value.length ≤ 2 * opts.partialChars)
    (h3 : opts.preserveLength = true)
    (h4 : opts.redactionChar.length = 1) :
    (redact hash8 s opts).redactedText.length = s.length ∧
    (redact hash8 s opts).redactedLength = (redact hash8 s opts).originalLength := by
  have hred : (redact hash8 s opts).redactedText.length = s.length := by
    simp only [redact]
    split_ifs with h0
    · rfl
    · show ((detect s).reverse.foldl
        (fun acc m => spliceJS acc m.startIndex m.endIndex
          (generateReplacement hash8 m.value opts)) s).length = s.length
      refine foldl_splice_length (fun m => generateReplacement hash8 m.value opts) s.length
        _ s rfl ?_
      intro m hm
      rw [List.mem_reverse] at hm
      obtain ⟨hb1, hb2, -⟩ := detect_bounds hm
      have hv := detect_value_length hm
      refine ⟨hb1, hb2, ?_⟩
      rw [generateReplacement_preserve hash8 m.value opts h1 ?_ h3 h4, hv]
      rcases h2 with h2 | h2
      · exact Or.inl h2
      · exact Or.inr (h2 m hm)
  refine ⟨hred, ?_⟩
  have heq : (redact hash8 s opts).redactedLength = (redact hash8 s opts).redactedText.length := by
    simp only [redact]
    split_ifs <;> rfl
  have ho : (redact hash8 s opts).originalLength = s.length := by
    simp only [redact]
    split_ifs <;> rfl
  rw [heq, ho, hred]

/-- Witness for C6: redacting `SSN: 123-45-6789` with the default options keeps
    the text length (spec Example 3's length behaviour). -/
theorem claimC6_witness :
    defaultOptions.useHash = false ∧
    (redact noHash (("SSN: 123-45-6789").toList) defaultOptions).redactedText.length =
      (("SSN: 123-45-6789").toList).length := by
  exact ⟨rfl, (claimC6 noHash (("SSN: 123-45-6789").toList) defaultOptions rfl (Or.inl rfl)
    rfl (by decide)).1⟩

/-! The audit-logger claims. -/

/-- The newly logged event is always at the head of the in-memory sequence. -/
theorem logStep_head (st : List AuditEvent) (c : LogCall) :
    (logStep st c).head? = some (mkEvent c) := by
  simp only [logStep]
  split_ifs with h
  · rw [show maxEvents = 9999 + 1 from rfl, List.take_succ_cons]
    rfl
  · rfl

/-- C7: the `complianceFlags` of every logged event are exactly the flags the
    spec enumerates for `(action, details, riskLevel)` — `phi_detected` gives
    `hipaa_phi_detection` plus `hipaa_high_risk_phi` at high risk, `phi_redacted`
    gives `hipaa_phi_redaction`, `data_exported` with `containsPHI` gives
    `hipaa_phi_export`, `permission_denied` gives `access_control_violation`,
    `file_uploaded` with an xlsx/csv/txt file type gives
    `structured_data_upload`, anything else gives no flags — and in particular
    the Example 5 call produces both `hipaa_phi_detection` and
    `hipaa_high_risk_phi`. -/
theorem claimC7 :
    (∀ (action : AuditAction) (details : Details) (rl : EventRisk),
        generateComplianceFlags action details rl = specComplianceFlags action details rl) ∧
    (∀ (st : List AuditEvent) (c : LogCall),
        ((logStep st c).head?).map AuditEvent.complianceFlags =
          some (specComplianceFlags c.action c.details c.riskLevel)) ∧
    (∀ env : LogEnv,
        ("hipaa_phi_detection") ∈ (mkEvent (exCall5 env)).complianceFlags ∧
        ("hipaa_high_risk_phi") ∈ (mkEvent (exCall5 env)).complianceFlags) := by
  have hmain : ∀ (action : AuditAction) (details : Details) (rl : EventRisk),
      generateComplianceFlags action details rl = specComplianceFlags action details rl := by
    intro action details rl
    cases hft : details.fileType with
    | none =>
        cases action <;> by_cases hr : rl = EventRisk.high <;>
          cases hcp : details.containsPHI <;>
            simp [generateComplianceFlags, specComplianceFlags, fileTypeAllowed, hft, hr, hcp]
    | some ft =>
        cases action <;> by_cases hr : rl = EventRisk.high <;>
          cases hcp : details.containsPHI <;>
          cases hin : (([("xlsx"), ("csv"), ("txt")] : List String).contains ft) <;>
            simp [generateComplianceFlags, specComplianceFlags, fileTypeAllowed, hft, hr,
              hcp, hin]
  refine ⟨hmain, ?_, ?_⟩
  · intro st c
    rw [logStep_head]
    simp [mkEvent, hmain]
  · intro env
    have hf : (mkEvent (exCall5 env)).complianceFlags =
        [("hipaa_phi_detection"), ("hipaa_high_risk_phi")] := rfl
    rw [hf]
    exact ⟨List.mem_cons_self _ _, List.mem_cons_of_mem _ (List.mem_cons_self _ _)⟩

/-- After `N ≤ maxEvents` log calls onto a state of room, the length grows by
    exactly `N`. -/
theorem foldl_logStep_length :
    ∀ (calls : List LogCall) (init : List AuditEvent),
      init.length + calls.length ≤ maxEvents →
      (calls.foldl logStep init).length = init.length + calls.length := by
  intro calls
  induction calls with
  | nil => intro init _; simp
  | cons c cs ih =>
      intro init hcap
      simp only [List.foldl_cons]
      have hstep : (logStep init c).length = init.length + 1 := by
        simp only [logStep]
        split_ifs with hgt
        · simp only [List.length_cons] at hgt
          simp only [List.length_cons] at hcap
          omega
        · simp
      rw [ih (logStep init c) (by rw [hstep]; simp only [List.length_cons] at hcap; omega),
        hstep]
      simp only [List.length_cons]
      omega

/-- The head after a non-empty sequence of log calls is the last call's event. -/
theorem foldl_logStep_getLast :
    ∀ (calls : List LogCall) (init : List AuditEvent) (c : LogCall),
      calls.getLast? = some c →
      (calls.foldl logStep init).head? = some (mkEvent c) := by
  intro calls
  induction calls with
  | nil => intro init c h; cases h
  | cons x cs ih =>
      intro init c h
      cases cs with
      | nil =>
          simp only [List.getLast?_singleton, Option.some.injEq] at h
          subst h
          simpa using logStep_head init x
      | cons y ys =>
          rw [List.getLast?_cons_cons] at h
          simpa using ih (logStep init x) c h

/-- `getEvents` with the empty filter returns the in-memory sequence unchanged. -/
theorem getEvents_nofilter (events : List AuditEvent) : getEvents events {} = events := rfl

/-- C8: starting from an empty in-memory sequence, after `N ≤ maxEvents` log
    calls `getEvents()` returns exactly `N` events, and its first element is the
    event created by the most recent call. -/
theorem claimC8 (calls : List LogCall) (hN : calls.length ≤ maxEvents) :
    (getEvents (calls.foldl logStep []) {}).length = calls.length ∧
    ∀ c, calls.getLast? = some c →
      (getEvents (calls.foldl logStep []) {}).head? = some (mkEvent c) := by
  rw [getEvents_nofilter]
  constructor
  · simpa using foldl_logStep_length calls [] (by simpa using hN)
  · intro c hc
    exact foldl_logStep_getLast calls [] c hc

/-- Witness for C8: two concrete log calls yield two events, newest first. -/
theorem claimC8_witness :
    (getEvents ([exCall1, exCall2].foldl logStep []) {}).length = 2 ∧
    (getEvents ([exCall1, exCall2].foldl logStep []) {}).head? = some (mkEvent exCall2) := by
  have h := claimC8 [exCall1, exCall2] (by decide)
  exact ⟨h.1, h.2 exCall2 (by decide)⟩

/-- C9: `getComplianceMetrics` with no date range on an empty event sequence
    degrades gracefully: all counts are zero and the time range is the defined
    pair of current-time values, with both endpoints set. -/
theorem claimC9 (now : Int) :
    getComplianceMetrics [] none now =
      { totalEvents := 0, phiDetections := 0, redactions := 0, highRiskEvents := 0,
        complianceViolations := 0, timeRange := (now, now) } := rfl

/-- C10: because `filter.limit ? ... : ...` tests truthiness and `0` is falsy,
    `getEvents` with `limit = 0` returns the whole filtered list, identical to
    the same filter without a limit. -/
theorem claimC10 (events : List AuditEvent) (f : EventFilter) :
    getEvents events { f with limit := some 0 } = getEvents events { f with limit := none } :=
  rfl

end Phi
